import Mathlib

/-!
Verification development for the ipo-tracker repository.

The Python sources are shallowly embedded as Lean definitions:

* decimal ("float") quantities are modelled as exact rationals `ℚ`;
  Python's `round(x, 2)` (round half to even at two decimal places) is
  modelled by `round2`.  Binary floating point representation effects
  are outside the model; every concrete value used in a theorem below is
  one on which binary floats and rationals agree.
* external data sources (Finnhub / FMP / yfinance) are parameters:
  a price-history query result is passed in as explicit lists of rows,
  and a `try ... except` around a data source is modelled by taking an
  `Except String _` input whose `error` case carries `str(e)`.
* Python `dict`s of fixed shape become structures; a key that a given
  code path leaves absent is modelled as the corresponding `Option`
  field being `none`.
* Python `set`s of strings are modelled as lists used only through
  membership.
* calendar timestamps carry both their formatted string (`dateStr`) and
  their day number (`day : ℤ`); `(now - last_dt).days` becomes integer
  subtraction of day numbers.
-/

/-- Python's `str.upper()` restricted to the alphabet that matters here
(ASCII tickers). -/
def upperStr (s : String) : String := String.mk (s.data.map Char.toUpper)

/-- Round half to even to an integer, the rounding Python's builtin
`round` performs. -/
def roundHalfEven (q : ℚ) : ℤ :=
  if q - Int.floor q < 1/2 then Int.floor q
  else if 1/2 < q - Int.floor q then Int.floor q + 1
  else if Int.floor q % 2 = 0 then Int.floor q else Int.floor q + 1

/-- Python's `round(q, 2)`. -/
def round2 (q : ℚ) : ℚ := (roundHalfEven (q * 100) : ℚ) / 100

/-! ## Data model of `scripts/fetch_ipos.py` -/

/-- One record of the canonical dataset (`data/ipos.json`, field set
produced by `merge_ipo_data`). -/
structure IpoRecord where
  ticker : String
  name : String
  ipo_date : String
  ipo_price : ℚ
  exchange : String
  sector : String
deriving DecidableEq, Inhabited

/-- One raw IPO-calendar row from the Financial Modeling Prep provider,
as consumed by `merge_ipo_data`.  A missing or falsy `symbol` is
modelled as `""`; `company` keeps its optionality because its default
is the symbol itself; `date`, `price` and `exchange` appear through
`.get` with constant defaults, so the default is folded into the field. -/
structure FmpIpo where
  symbol : String
  company : Option String
  date : String
  price : ℚ
  exchange : String
deriving DecidableEq, Inhabited

/-- The set comprehension over existing tickers in `merge_ipo_data`
(`[ipo["ticker"] for ipo in existing]`, used only for membership). -/
def tickSet (existing : List IpoRecord) : List String :=
  existing.map (fun r => r.ticker)

/-- The record literal appended by `merge_ipo_data`; `profile` is the
`fetch_company_profile` collaborator, reduced to the only field read
from it (`profile.get("sector", "Unknown")`). -/
def fmpToRecord (profile : String → String) (r : FmpIpo) : IpoRecord :=
  { ticker := r.symbol
    name := r.company.getD r.symbol
    ipo_date := r.date
    ipo_price := r.price
    exchange := r.exchange
    sector := profile r.symbol }

/-- The loop body of `merge_ipo_data`: running ticker set plus
accumulated list. -/
def mergeFold (profile : String → String) :
    List String → List IpoRecord → List FmpIpo → List String × List IpoRecord
  | seen, acc, [] => (seen, acc)
  | seen, acc, r :: rest =>
    if r.symbol ≠ "" ∧ r.symbol ∉ seen then
      mergeFold profile (r.symbol :: seen) (acc ++ [fmpToRecord profile r]) rest
    else
      mergeFold profile seen acc rest

/-- Lexicographic comparison of character lists, the order Python uses
when comparing the `ipo_date` strings of two records. -/
def charListLeB : List Char → List Char → Bool
  | [], _ => true
  | _ :: _, [] => false
  | c :: cs, d :: ds => if c < d then true else if d < c then false else charListLeB cs ds

/-- Python's `a <= b` on strings (lexicographic by code point). -/
def strLeB (a b : String) : Bool := charListLeB a.data b.data

theorem charListLeB_refl (a : List Char) : charListLeB a a = true := by
  induction a with
  | nil => rfl
  | cons c cs ih => simp [charListLeB, lt_irrefl, ih]

theorem strLeB_refl (a : String) : strLeB a a = true := charListLeB_refl a.data

theorem charListLeB_total (a b : List Char) (h : charListLeB a b = false) :
    charListLeB b a = true := by
  induction a generalizing b with
  | nil => simp [charListLeB] at h
  | cons c cs ih =>
    cases b with
    | nil => rfl
    | cons d ds =>
      by_cases hcd : c < d
      · simp [charListLeB, hcd] at h
      · by_cases hdc : d < c
        · simp [charListLeB, hdc]
        · have hcd' : c = d := le_antisymm (not_lt.mp hdc) (not_lt.mp hcd)
          subst hcd'
          simp only [charListLeB, if_neg hcd, if_neg hdc] at h
          simp only [charListLeB, if_neg hcd, if_neg hdc]
          exact ih ds h

theorem strLeB_total (a b : String) (h : strLeB a b = false) : strLeB b a = true :=
  charListLeB_total a.data b.data h

theorem charListLeB_trans {a b c : List Char} (hab : charListLeB a b = true)
    (hbc : charListLeB b c = true) : charListLeB a c = true := by
  induction a generalizing b c with
  | nil => rfl
  | cons x xs ih =>
    cases b with
    | nil => simp [charListLeB] at hab
    | cons y ys =>
      cases c with
      | nil => simp [charListLeB] at hbc
      | cons z zs =>
        by_cases hxy : x < y
        · by_cases hyz : y < z
          · simp [charListLeB, lt_trans hxy hyz]
          · by_cases hzy : z < y
            · simp [charListLeB, hyz, hzy] at hbc
            · have : y = z := le_antisymm (not_lt.mp hzy) (not_lt.mp hyz)
              subst this
              simp [charListLeB, hxy]
        · by_cases hyx : y < x
          · simp [charListLeB, hxy, hyx] at hab
          · have : x = y := le_antisymm (not_lt.mp hyx) (not_lt.mp hxy)
            subst this
            simp only [charListLeB, if_neg hxy, if_neg hyx] at hab
            by_cases hxz : x < z
            · simp [charListLeB, hxz]
            · by_cases hzx : z < x
              · simp [charListLeB, hxz, hzx] at hbc
              · simp only [charListLeB, if_neg hxz, if_neg hzx] at hbc ⊢
                exact ih hab hbc

theorem strLeB_trans {a b c : String} (hab : strLeB a b = true)
    (hbc : strLeB b c = true) : strLeB a c = true :=
  charListLeB_trans hab hbc

theorem strLeB_ne_of_not (a b : String) (h : ¬ strLeB a b = true) : a ≠ b := by
  intro hab
  exact h (hab ▸ strLeB_refl a)

/-- Stable insertion used to model Python's stable
`list.sort(key=..., reverse=True)` on the `ipo_date` key: an element is
placed in front of the first element whose key is `≤` its own, so among
equal keys the original (earlier) element stays first. -/
def insertDesc (x : IpoRecord) : List IpoRecord → List IpoRecord
  | [] => [x]
  | y :: l => if strLeB y.ipo_date x.ipo_date then x :: y :: l else y :: insertDesc x l

/-- Stable sort by `ipo_date` descending, modelling
`merged.sort(key=lambda x: x.get("ipo_date", ""), reverse=True)`.
Python's sort is a stable sort; any stable sort realises it, and
stability is proved below (`sortDesc_filter_date`). -/
def sortDesc : List IpoRecord → List IpoRecord
  | [] => []
  | x :: l => insertDesc x (sortDesc l)

/-- `merge_ipo_data(existing, new_ipos)` from `scripts/fetch_ipos.py`. -/
def merge_ipo_data (profile : String → String) (existing : List IpoRecord)
    (new_ipos : List FmpIpo) : List IpoRecord :=
  sortDesc (mergeFold profile (tickSet existing) existing new_ipos).2

/-- The validity predicate of `filter_valid_ipos`: truthy ticker and
date, positive price. -/
def validIpo (r : IpoRecord) : Bool :=
  !(r.ticker == "") && !(r.ipo_date == "") && decide (0 < r.ipo_price)

/-- `filter_valid_ipos(ipos)` from `scripts/fetch_ipos.py`. -/
def filter_valid_ipos (ipos : List IpoRecord) : List IpoRecord :=
  ipos.filter validIpo

/-- The `ipos` list persisted by `main()` of `scripts/fetch_ipos.py`:
with a non-empty fetch the merged list is filtered and saved, otherwise
the existing list is saved unchanged (only the timestamp is touched). -/
def fetchPersistedIpos (profile : String → String) (existing : List IpoRecord)
    (new_ipos : List FmpIpo) : List IpoRecord :=
  if new_ipos.isEmpty then existing
  else filter_valid_ipos (merge_ipo_data profile existing new_ipos)

/-! Sorting lemmas. -/

theorem insertDesc_perm (x : IpoRecord) (l : List IpoRecord) :
    List.Perm (insertDesc x l) (x :: l) := by
  induction l with
  | nil => simp [insertDesc]
  | cons y t ih =>
    by_cases h : strLeB y.ipo_date x.ipo_date = true
    · simp [insertDesc, h]
    · simp only [insertDesc, if_neg h]
      exact (ih.cons y).trans (List.Perm.swap x y t)

theorem sortDesc_perm (l : List IpoRecord) : List.Perm (sortDesc l) l := by
  induction l with
  | nil => simp [sortDesc]
  | cons x t ih =>
    exact (insertDesc_perm x (sortDesc t)).trans (ih.cons x)

/-- Sortedness by `ipo_date` descending. -/
def SortedDesc (l : List IpoRecord) : Prop :=
  l.Pairwise (fun a b => strLeB b.ipo_date a.ipo_date = true)

theorem sortedDesc_insertDesc (x : IpoRecord) (l : List IpoRecord)
    (h : SortedDesc l) : SortedDesc (insertDesc x l) := by
  induction l with
  | nil => simp [insertDesc, SortedDesc]
  | cons y t ih =>
    rcases List.pairwise_cons.mp h with ⟨hy, ht⟩
    by_cases hle : strLeB y.ipo_date x.ipo_date = true
    · simp only [insertDesc, if_pos hle]
      refine List.pairwise_cons.mpr ⟨?_, h⟩
      intro b hb
      rcases List.mem_cons.mp hb with rfl | hb
      · exact hle
      · exact strLeB_trans (hy b hb) hle
    · simp only [insertDesc, if_neg hle]
      refine List.pairwise_cons.mpr ⟨?_, ih ht⟩
      intro b hb
      have hb' := (insertDesc_perm x t).mem_iff.mp hb
      rcases List.mem_cons.mp hb' with rfl | hb''
      · exact strLeB_total _ _ (Bool.not_eq_true _ ▸ hle)
      · exact hy b hb''

theorem sortedDesc_sortDesc (l : List IpoRecord) : SortedDesc (sortDesc l) := by
  induction l with
  | nil => simp [sortDesc, SortedDesc]
  | cons x t ih => exact sortedDesc_insertDesc x (sortDesc t) ih

/-- Inserting into an already sorted list whose head is not below `x`
puts `x` at the front; hence sorting a sorted list is the identity. -/
theorem sortDesc_of_sorted (l : List IpoRecord) (h : SortedDesc l) :
    sortDesc l = l := by
  induction l with
  | nil => rfl
  | cons x t ih =>
    rcases List.pairwise_cons.mp h with ⟨hx, ht⟩
    rw [sortDesc, ih ht]
    cases t with
    | nil => rfl
    | cons y t' =>
      have : strLeB y.ipo_date x.ipo_date = true := hx y (by simp)
      simp [insertDesc, this]

/-- Stability, expressed per key: the sublist of records carrying any
given `ipo_date` is unchanged by the sort. -/
theorem insertDesc_filter_date (x : IpoRecord) (l : List IpoRecord) (k : String) :
    (insertDesc x l).filter (fun r => r.ipo_date == k) =
      (x :: l).filter (fun r => r.ipo_date == k) := by
  induction l with
  | nil => rfl
  | cons y t ih =>
    by_cases hle : strLeB y.ipo_date x.ipo_date = true
    · simp [insertDesc, hle]
    · have hne : y.ipo_date ≠ x.ipo_date := strLeB_ne_of_not _ _ hle
      simp only [insertDesc, if_neg hle]
      by_cases hy : y.ipo_date = k
      · have hx : ¬ (x.ipo_date == k) = true := by
          simp only [beq_iff_eq]
          intro hxk
          exact hne (hy.trans hxk.symm)
        simp only [List.filter_cons]
        simp only [beq_iff_eq, hy, if_pos rfl] at *
        rw [ih]
        simp [List.filter_cons, hx]
      · have hy' : ¬ (y.ipo_date == k) = true := by simpa using hy
        simp only [List.filter_cons, hy', if_neg, Bool.false_eq_true,
          not_false_iff]
        rw [ih]
        simp [List.filter_cons, hy']

theorem sortDesc_filter_date (l : List IpoRecord) (k : String) :
    (sortDesc l).filter (fun r => r.ipo_date == k) =
      l.filter (fun r => r.ipo_date == k) := by
  induction l with
  | nil => rfl
  | cons x t ih =>
    rw [sortDesc, insertDesc_filter_date]
    simp only [List.filter_cons]
    by_cases hx : (x.ipo_date == k) = true
    · simp [hx, ih]
    · simp [hx, ih]

/-! Characterization of the merge fold. -/

/-- The records `merge_ipo_data` appends, written the way the spec
describes the selection: scan incoming in order, keep a record exactly
when its symbol is non-empty and not yet seen, first occurrence wins. -/
def claimNewRecords (profile : String → String) :
    List String → List FmpIpo → List IpoRecord
  | _, [] => []
  | seen, r :: rest =>
    if r.symbol ≠ "" ∧ r.symbol ∉ seen then
      fmpToRecord profile r :: claimNewRecords profile (r.symbol :: seen) rest
    else
      claimNewRecords profile seen rest

theorem mergeFold_snd (profile : String → String) (seen : List String)
    (acc : List IpoRecord) (l : List FmpIpo) :
    (mergeFold profile seen acc l).2 = acc ++ claimNewRecords profile seen l := by
  induction l generalizing seen acc with
  | nil => simp [mergeFold, claimNewRecords]
  | cons r rest ih =>
    by_cases h : r.symbol ≠ "" ∧ r.symbol ∉ seen
    · simp only [mergeFold, claimNewRecords, if_pos h, ih]
      simp
    · simp only [mergeFold, claimNewRecords, if_neg h, ih]

theorem mergeFold_fst_mem (profile : String → String) (seen : List String)
    (acc : List IpoRecord) (l : List FmpIpo) (s : String) (hs : s ∈ seen) :
    s ∈ (mergeFold profile seen acc l).1 := by
  induction l generalizing seen acc with
  | nil => simpa [mergeFold] using hs
  | cons r rest ih =>
    by_cases h : r.symbol ≠ "" ∧ r.symbol ∉ seen
    · simp only [mergeFold, if_pos h]
      exact ih _ _ (List.mem_cons_of_mem _ hs)
    · simp only [mergeFold, if_neg h]
      exact ih _ _ hs

theorem mergeFold_covers (profile : String → String) (seen : List String)
    (acc : List IpoRecord) (l : List FmpIpo) :
    ∀ r ∈ l, r.symbol = "" ∨ r.symbol ∈ (mergeFold profile seen acc l).1 := by
  induction l generalizing seen acc with
  | nil => simp
  | cons x rest ih =>
    intro r hr
    rcases List.mem_cons.mp hr with rfl | hr
    · by_cases h : r.symbol ≠ "" ∧ r.symbol ∉ seen
      · simp only [mergeFold, if_pos h]
        exact Or.inr (mergeFold_fst_mem _ _ _ _ _ (by simp))
      · rcases not_and_or.mp h with h1 | h2
        · exact Or.inl (not_ne_iff.mp h1)
        · by_cases hempty : r.symbol = ""
          · exact Or.inl hempty
          · simp only [mergeFold, if_neg h]
            exact Or.inr (mergeFold_fst_mem _ _ _ _ _ (not_not.mp h2))
    · by_cases h : x.symbol ≠ "" ∧ x.symbol ∉ seen
      · simp only [mergeFold, if_pos h]
        exact ih _ _ r hr
      · simp only [mergeFold, if_neg h]
        exact ih _ _ r hr

theorem mergeFold_fst_sub (profile : String → String) (seen : List String)
    (acc : List IpoRecord) (l : List FmpIpo) (s : String)
    (hs : s ∈ (mergeFold profile seen acc l).1) :
    s ∈ seen ∨ s ∈ (claimNewRecords profile seen l).map (fun r => r.ticker) := by
  induction l generalizing seen acc with
  | nil => simp only [mergeFold] at hs; exact Or.inl hs
  | cons r rest ih =>
    by_cases h : r.symbol ≠ "" ∧ r.symbol ∉ seen
    · simp only [mergeFold, if_pos h] at hs
      rcases ih _ _ hs with hseen | hnew
      · rcases List.mem_cons.mp hseen with rfl | hseen'
        · exact Or.inr (by simp [claimNewRecords, if_pos h, fmpToRecord])
        · exact Or.inl hseen'
      · refine Or.inr ?_
        simp only [claimNewRecords, if_pos h, List.map_cons, List.mem_cons]
        exact Or.inr hnew
    · simp only [mergeFold, if_neg h] at hs
      rcases ih _ _ hs with hseen | hnew
      · exact Or.inl hseen
      · refine Or.inr ?_
        simpa [claimNewRecords, if_neg h] using hnew

theorem claimNewRecords_nil_of_covered (profile : String → String)
    (seen : List String) (l : List FmpIpo)
    (h : ∀ r ∈ l, r.symbol = "" ∨ r.symbol ∈ seen) :
    claimNewRecords profile seen l = [] := by
  induction l generalizing seen with
  | nil => rfl
  | cons r rest ih =>
    have hr := h r (by simp)
    have hcond : ¬ (r.symbol ≠ "" ∧ r.symbol ∉ seen) := by
      rcases hr with h1 | h2
      · exact fun hc => hc.1 h1
      · exact fun hc => hc.2 h2
    simp only [claimNewRecords, if_neg hcond]
    exact ih seen (fun x hx => h x (List.mem_cons_of_mem _ hx))

theorem claimNewRecords_tickers_fresh (profile : String → String)
    (seen : List String) (l : List FmpIpo) :
    (∀ t ∈ (claimNewRecords profile seen l).map (fun r => r.ticker), t ∉ seen)
      ∧ ((claimNewRecords profile seen l).map (fun r => r.ticker)).Nodup := by
  induction l generalizing seen with
  | nil => simp [claimNewRecords]
  | cons r rest ih =>
    by_cases h : r.symbol ≠ "" ∧ r.symbol ∉ seen
    · simp only [claimNewRecords, if_pos h, List.map_cons]
      have ihr := ih (r.symbol :: seen)
      constructor
      · intro t ht
        rcases List.mem_cons.mp ht with rfl | ht'
        · exact h.2
        · intro hts
          exact ihr.1 t ht' (List.mem_cons_of_mem _ hts)
      · refine List.nodup_cons.mpr ⟨?_, ihr.2⟩
        intro hmem
        exact ihr.1 _ hmem (by simp [fmpToRecord])
    · simp only [claimNewRecords, if_neg h]
      have ihr := ih seen
      exact ihr

/-! ## Data model of `scripts/find_missing_ipos.py` -/

/-- Value of a digit string (most significant first). -/
def digitsToNat (cs : List Char) : ℕ :=
  cs.foldl (fun acc c => 10 * acc + (c.toNat - 48)) 0

/-- Exponent suffix of a Python float literal (`e`/`E` already
consumed): optional sign then at least one digit, nothing after. -/
def parseExpPart (m : ℚ) (cs : List Char) : Option ℚ :=
  let signAndRest : ℤ × List Char :=
    match cs with
    | '-' :: t => (-1, t)
    | '+' :: t => (1, t)
    | _ => (1, cs)
  let ed := signAndRest.2.takeWhile Char.isDigit
  if ed.isEmpty ∨ ¬ (signAndRest.2.dropWhile Char.isDigit).isEmpty then none
  else some (m * (10 : ℚ) ^ (signAndRest.1 * (digitsToNat ed : ℤ)))

/-- Python's `float(s)` on the decimal-literal grammar
`[sign] (digits [. digits] | . digits) [(e|E) [sign] digits]`.
Returns `none` where `float` raises `ValueError`.  Whitespace trimming,
underscores in literals and `inf`/`nan` words are outside the model;
no concrete string used below involves them. -/
def parseFloatChars (cs : List Char) : Option ℚ :=
  let signAndRest : ℚ × List Char :=
    match cs with
    | '-' :: t => (-1, t)
    | '+' :: t => (1, t)
    | _ => (1, cs)
  let sgn := signAndRest.1
  let cs1 := signAndRest.2
  let ip := cs1.takeWhile Char.isDigit
  let rest1 := cs1.dropWhile Char.isDigit
  match rest1 with
  | [] => if ip.isEmpty then none else some (sgn * (digitsToNat ip : ℚ))
  | '.' :: t =>
    let fp := t.takeWhile Char.isDigit
    let rest2 := t.dropWhile Char.isDigit
    if ip.isEmpty ∧ fp.isEmpty then none
    else
      let mant : ℚ := (digitsToNat ip : ℚ) + (digitsToNat fp : ℚ) / (10 : ℚ) ^ fp.length
      match rest2 with
      | [] => some (sgn * mant)
      | e :: t2 => if e = 'e' ∨ e = 'E' then parseExpPart (sgn * mant) t2 else none
  | e :: t2 =>
    if (e = 'e' ∨ e = 'E') ∧ ¬ ip.isEmpty then
      parseExpPart (sgn * (digitsToNat ip : ℚ)) t2
    else none

/-- Python's `float(s)` as used by `normalize_finnhub_ipo`. -/
def pyFloatQ (s : String) : Option ℚ := parseFloatChars s.data

/-- `price_str.split("-")[-1]`: the segment after the last dash (the
whole string when it has no dash). -/
def afterLastDash : List Char → List Char
  | [] => []
  | c :: rest =>
    if '-' ∈ rest then afterLastDash rest
    else if c = '-' then rest
    else c :: rest

/-- The price-parsing block of `normalize_finnhub_ipo`: substitute
`"0"` for a missing or empty price, take the part after the last dash
when a dash occurs, and fall back to `0` on `ValueError`. -/
def parsePriceField (price : Option String) : ℚ :=
  let ps : String :=
    match price with
    | none => "0"
    | some s => if s = "" then "0" else s
  if '-' ∈ ps.data then (pyFloatQ (String.mk (afterLastDash ps.data))).getD 0
  else (pyFloatQ ps).getD 0

/-- The `ipo_price` value `normalize_finnhub_ipo` stores:
`round(price, 2)` of the parsed price field. -/
def normalizedPrice (price : Option String) : ℚ :=
  round2 (parsePriceField price)

/-- One raw Finnhub IPO-calendar row as read by
`normalize_finnhub_ipo`; a field is `none` when the key is missing or
its JSON value is null. -/
structure FinnhubIpo where
  symbol : Option String
  name : Option String
  date : Option String
  price : Option String
  exchange : Option String
  status : Option String
deriving DecidableEq, Inhabited

/-- Python's `x or default` on an optional string field (also replaces
the empty string). -/
def orDefault (o : Option String) (dflt : String) : String :=
  match o with
  | none => dflt
  | some s => if s = "" then dflt else s

/-- A normalized entry, the shape `normalize_finnhub_ipo` produces and
`pending_ipos.json` stores. -/
structure PendingEntry where
  ticker : String
  name : String
  ipo_date : String
  ipo_price : ℚ
  exchange : String
  sector : String
  status : String
  source : String
deriving DecidableEq, Inhabited

/-- `normalize_finnhub_ipo(ipo)` from `scripts/find_missing_ipos.py`. -/
def normalize_finnhub_ipo (ipo : FinnhubIpo) : PendingEntry :=
  { ticker := upperStr (orDefault ipo.symbol "")
    name := orDefault ipo.name "Unknown"
    ipo_date := orDefault ipo.date ""
    ipo_price := normalizedPrice ipo.price
    exchange := orDefault ipo.exchange "Unknown"
    sector := "Unknown"
    status := orDefault ipo.status "unknown"
    source := "Finnhub" }

/-! ## Data model of `ipo_dashboard.py` -/

/-- One row of a yfinance price history as read by
`check_stock_status`: the formatted index date, its day number, and the
Close column. -/
structure StatusRow where
  dateStr : String
  day : ℤ
  closePrice : ℚ
deriving DecidableEq, Inhabited

/-- The five history queries `check_stock_status` can issue for one
ticker: the four short-horizon periods and the lifetime-max period. -/
structure StockHist where
  h1d : List StatusRow
  h5d : List StatusRow
  h1mo : List StatusRow
  h3mo : List StatusRow
  hmax : List StatusRow
deriving DecidableEq, Inhabited

/-- The result dictionary of `check_stock_status`.  Keys a code path
does not set are `none`. -/
structure StatusResult where
  status : String
  current_price : Option ℚ
  last_price : Option ℚ
  last_trade_date : Option String
  new_ticker : Option String
  message : Option String
deriving DecidableEq, Inhabited

/-- The f-string `"Last traded on {date} at ${price:.2f}"`; the numeric
rendering of the price is abstracted by `toString`. -/
def lastTradedMessage (dateStr : String) (price : ℚ) : String :=
  "Last traded on " ++ dateStr ++ " at $" ++ toString price

/-- The short-horizon periods in the order the `for period in
["1d", "5d", "1mo", "3mo"]` loop queries them. -/
def shortWindows (h : StockHist) : List (List StatusRow) :=
  [h.h1d, h.h5d, h.h1mo, h.h3mo]

/-- The first short-horizon query returning data, if any (the loop
returns on the first non-empty history). -/
def firstShortWindow (h : StockHist) : Option (List StatusRow) :=
  (shortWindows h).find? (fun w => !w.isEmpty)

/-- `check_stock_status(ticker)` from `ipo_dashboard.py`.  `now` is
`datetime.now()` at day granularity; the `try ... except` around the
yfinance calls is the `Except` input, whose `error` case carries
`str(e)`. -/
def check_stock_status (now : ℤ) (input : Except String StockHist) : StatusResult :=
  match input with
  | Except.error e =>
    { status := "unknown", current_price := none, last_price := none,
      last_trade_date := none, new_ticker := none,
      message := some ("Error: " ++ e) }
  | Except.ok h =>
    match firstShortWindow h with
    | some w =>
      { status := "active",
        current_price := some (round2 ((w.getLastD default).closePrice)),
        last_price := none, last_trade_date := none, new_ticker := none,
        message := none }
    | none =>
      match h.hmax.getLast? with
      | some r =>
        if 30 < now - r.day then
          { status := "delisted", current_price := none,
            last_price := some (round2 r.closePrice),
            last_trade_date := some r.dateStr, new_ticker := none,
            message := some (lastTradedMessage r.dateStr (round2 r.closePrice)) }
        else
          { status := "delisted", current_price := none, last_price := none,
            last_trade_date := none, new_ticker := none,
            message := some ("No trading data available") }
      | none =>
        { status := "delisted", current_price := none, last_price := none,
          last_trade_date := none, new_ticker := none,
          message := some ("No trading data available") }

/-- The value `get_current_price` hands to `get_ipo_performance`:
a float for an active ticker, the `"DELISTED"`/`"MERGED"` sentinel
strings, or `None`. -/
inductive CurrentPrice where
  | price (q : ℚ)
  | delistedTag
  | mergedTag
  | unavailable
deriving DecidableEq, Inhabited

/-- `get_current_price(ticker)` from `ipo_dashboard.py`, as a function
of the status result it reads. -/
def get_current_price (s : StatusResult) : CurrentPrice :=
  if s.status = "active" then CurrentPrice.price (s.current_price.getD 0)
  else if s.status = "delisted" then CurrentPrice.delistedTag
  else if s.status = "merged" then CurrentPrice.mergedTag
  else CurrentPrice.unavailable

/-- One row of the 5-day history `get_ipo_performance` fetches around
the IPO date (only the Open column of its first row is read). -/
structure PriceRow where
  dateStr : String
  openPrice : ℚ
  closePrice : ℚ
deriving DecidableEq, Inhabited

/-- The result dictionary of `get_ipo_performance`. -/
structure PerfResult where
  ticker : String
  ipo_date : String
  ipo_open_price : ℚ
  current_price : CurrentPrice
  price_change : Option ℚ
  percent_change : Option ℚ
  status : Option String
  error : Option String
deriving DecidableEq, Inhabited

/-- The IPO opening price `get_ipo_performance` resolves: the rounded
Open of the first row of the 5-day window, else the stored price. -/
def resolvedOpen (hist : List PriceRow) (storedPrice : ℚ) : ℚ :=
  match hist with
  | r :: _ => round2 r.openPrice
  | [] => storedPrice

/-- `get_ipo_performance(ticker, ipo_date, ipo_price)` from
`ipo_dashboard.py`, as a function of the fetched 5-day window and the
current-price value.  A zero resolved opening price makes the division
raise `ZeroDivisionError`, caught by the surrounding `except`, whose
result dictionary carries the stored price and `str(e)`. -/
def get_ipo_performance (ticker ipo_date : String) (storedPrice : ℚ)
    (hist : List PriceRow) (current : CurrentPrice) : PerfResult :=
  let ipoOpen := resolvedOpen hist storedPrice
  match current with
  | CurrentPrice.delistedTag =>
    { ticker := ticker, ipo_date := ipo_date, ipo_open_price := ipoOpen,
      current_price := CurrentPrice.delistedTag, price_change := none,
      percent_change := none, status := some ("delisted"), error := none }
  | CurrentPrice.mergedTag =>
    { ticker := ticker, ipo_date := ipo_date, ipo_open_price := ipoOpen,
      current_price := CurrentPrice.mergedTag, price_change := none,
      percent_change := none, status := some ("merged"), error := none }
  | CurrentPrice.unavailable =>
    { ticker := ticker, ipo_date := ipo_date, ipo_open_price := ipoOpen,
      current_price := CurrentPrice.unavailable, price_change := none,
      percent_change := none, status := none,
      error := some ("Could not fetch current price") }
  | CurrentPrice.price c =>
    if ipoOpen = 0 then
      { ticker := ticker, ipo_date := ipo_date, ipo_open_price := storedPrice,
        current_price := CurrentPrice.unavailable, price_change := none,
        percent_change := none, status := none,
        error := some ("float division by zero") }
    else
      { ticker := ticker, ipo_date := ipo_date, ipo_open_price := ipoOpen,
        current_price := CurrentPrice.price c,
        price_change := some (round2 (c - ipoOpen)),
        percent_change := some (round2 ((c - ipoOpen) / ipoOpen * 100)),
        status := some ("active"), error := none }

/-! ## Data model of `scripts/process_pending_ipos.py` -/

/-- The result dictionary of `get_ipo_price_yfinance`, initialised with
`success = False` and every other informative field absent. -/
structure PriceResult where
  ticker : String
  ipo_date : String
  actual_first_trade_date : Option String
  ipo_price : Option ℚ
  price_source : Option String
  success : Bool
  error : Option String
deriving DecidableEq, Inhabited

/-- The three yfinance history queries `get_ipo_price_yfinance` can
issue: the 14-day window from the IPO date, the calendar month of the
IPO date, and the lifetime-max history. -/
structure YfData where
  window : List PriceRow
  month : List PriceRow
  maxHist : List PriceRow
deriving DecidableEq, Inhabited

/-- The base result dictionary built at the top of
`get_ipo_price_yfinance`. -/
def basePriceResult (ticker ipo_date : String) : PriceResult :=
  { ticker := ticker, ipo_date := ipo_date, actual_first_trade_date := none
    ipo_price := none, price_source := none, success := false, error := none }

/-- Strategy 3 of `get_ipo_price_yfinance`: first row of the
lifetime-max history, Open preferred over Close. -/
def priceFromMax (base : PriceResult) (d : YfData) : PriceResult :=
  match d.maxHist with
  | r :: _ =>
    if 0 < r.openPrice then
      { base with
          ipo_price := some (round2 r.openPrice)
          price_source := some ("first_available_open")
          actual_first_trade_date := some r.dateStr
          success := true }
    else if 0 < r.closePrice then
      { base with
          ipo_price := some (round2 r.closePrice)
          price_source := some ("first_available_close")
          actual_first_trade_date := some r.dateStr
          success := true }
    else { base with error := some ("No price data available") }
  | [] => { base with error := some ("No price data available") }

/-- Strategy 2 of `get_ipo_price_yfinance`: first Close of the
calendar month. -/
def priceFromMonth (base : PriceResult) (d : YfData) : PriceResult :=
  match d.month with
  | r :: _ =>
    if 0 < r.closePrice then
      { base with
          ipo_price := some (round2 r.closePrice)
          price_source := some ("month_close_price")
          actual_first_trade_date := some r.dateStr
          success := true }
    else priceFromMax base d
  | [] => priceFromMax base d

/-- `get_ipo_price_yfinance(ticker, ipo_date)` from
`scripts/process_pending_ipos.py`, as a function of the fetched
histories; the surrounding `try ... except` is the `Except` input. -/
def get_ipo_price_yfinance (ticker ipo_date : String)
    (input : Except String YfData) : PriceResult :=
  let base := basePriceResult ticker ipo_date
  match input with
  | Except.error e => { base with error := some e }
  | Except.ok d =>
    match d.window with
    | r :: _ =>
      if 0 < r.openPrice then
        { base with
            ipo_price := some (round2 r.openPrice)
            price_source := some ("open_price")
            actual_first_trade_date := some r.dateStr
            success := true }
      else if 0 < r.closePrice then
        { base with
            ipo_price := some (round2 r.closePrice)
            price_source := some ("close_price")
            actual_first_trade_date := some r.dateStr
            success := true }
      else priceFromMonth base d
    | [] => priceFromMonth base d

/-! The resolution ladder as the spec words it, for the refinement
theorem: an ordered list of strategies, the first one yielding a
strictly positive price wins. -/

/-- A successful rung of the ladder: provenance tag, date of the row
used, and its (positive) raw price. -/
structure LadderHit where
  tag : String
  dateStr : String
  rawPrice : ℚ
deriving DecidableEq, Inhabited

/-- Rung 1: open of the first trading day in the 14-day window. -/
def rungWindowOpen (d : YfData) : Option LadderHit :=
  match d.window with
  | r :: _ => if 0 < r.openPrice then some ⟨"open_price", r.dateStr, r.openPrice⟩ else none
  | [] => none

/-- Rung 2: close of that same first day. -/
def rungWindowClose (d : YfData) : Option LadderHit :=
  match d.window with
  | r :: _ => if 0 < r.closePrice then some ⟨"close_price", r.dateStr, r.closePrice⟩ else none
  | [] => none

/-- Rung 3: close of the first trading day of the calendar month. -/
def rungMonthClose (d : YfData) : Option LadderHit :=
  match d.month with
  | r :: _ => if 0 < r.closePrice then some ⟨"month_close_price", r.dateStr, r.closePrice⟩ else none
  | [] => none

/-- Rung 4: earliest open of the lifetime-max history. -/
def rungMaxOpen (d : YfData) : Option LadderHit :=
  match d.maxHist with
  | r :: _ => if 0 < r.openPrice then some ⟨"first_available_open", r.dateStr, r.openPrice⟩ else none
  | [] => none

/-- Rung 5: earliest close of the lifetime-max history. -/
def rungMaxClose (d : YfData) : Option LadderHit :=
  match d.maxHist with
  | r :: _ => if 0 < r.closePrice then some ⟨"first_available_close", r.dateStr, r.closePrice⟩ else none
  | [] => none

/-- The first rung of the ladder that yields a strictly positive
price, in the fixed order of the spec. -/
def ladderFirst (d : YfData) : Option LadderHit :=
  match rungWindowOpen d with
  | some hit => some hit
  | none =>
    match rungWindowClose d with
    | some hit => some hit
    | none =>
      match rungMonthClose d with
      | some hit => some hit
      | none =>
        match rungMaxOpen d with
        | some hit => some hit
        | none => rungMaxClose d

/-- The resolver outcome the spec describes for a given winning rung
(or for total failure). -/
def ladderSpecResult (ticker ipo_date : String) : Option LadderHit → PriceResult
  | some hit =>
    { ticker := ticker, ipo_date := ipo_date
      actual_first_trade_date := some hit.dateStr
      ipo_price := some (round2 hit.rawPrice)
      price_source := some hit.tag, success := true, error := none }
  | none =>
    { ticker := ticker, ipo_date := ipo_date, actual_first_trade_date := none
      ipo_price := none, price_source := none, success := false
      error := some ("No price data available") }

/-- One entry of the failed-entries file. -/
structure FailedEntry where
  ticker : String
  name : String
  ipo_date : String
  error : String
deriving DecidableEq, Inhabited

/-- `format_for_database(pending_entry, price_info, sector)` from
`scripts/process_pending_ipos.py`. -/
def format_for_database (e : PendingEntry) (pi : PriceResult)
    (sector : String) : IpoRecord :=
  { ticker := upperStr e.ticker
    name := e.name
    ipo_date :=
      match pi.actual_first_trade_date with
      | some d => if d = "" then e.ipo_date else d
      | none => e.ipo_date
    ipo_price := pi.ipo_price.getD 0
    exchange := e.exchange
    sector := if sector ≠ "Unknown" then sector else e.sector }

/-- Loop state of `main()` in `scripts/process_pending_ipos.py`. -/
structure PendState where
  tickers : List String
  succ : List IpoRecord
  failed : List FailedEntry
  skipped : ℕ
deriving DecidableEq, Inhabited

/-- One iteration of the pending loop: skip a duplicate, skip a
missing ticker or date, and otherwise resolve the price, appending to
the successful or failed partition. -/
def stepPending (priceOf : String → String → PriceResult)
    (sectorOf : String → String) (st : PendState) (e : PendingEntry) : PendState :=
  let t := upperStr e.ticker
  if t ∈ st.tickers then { st with skipped := st.skipped + 1 }
  else if t = "" ∨ e.ipo_date = "" then { st with skipped := st.skipped + 1 }
  else
    let priceInfo := priceOf t e.ipo_date
    if priceInfo.success then
      { st with
          succ := st.succ ++ [format_for_database e priceInfo (sectorOf t)]
          tickers := t :: st.tickers }
    else
      { st with
          failed := st.failed ++
            [⟨t, e.name, e.ipo_date, priceInfo.error.getD ("Unknown error")⟩] }

/-- The whole pending loop. -/
def processPending (priceOf : String → String → PriceResult)
    (sectorOf : String → String) (tickers0 : List String)
    (pending : List PendingEntry) : PendState :=
  pending.foldl (stepPending priceOf sectorOf) ⟨tickers0, [], [], 0⟩

/-- The canonical dataset file `data/ipos.json`. -/
structure Database where
  last_updated : String
  source : String
  ipos : List IpoRecord
deriving DecidableEq, Inhabited

/-- The files a run of `main()` writes: `ipos_backup.json`
(unconditionally, right after loading), `ipos.json` (only when some
entry succeeded) and `failed_ipos.json` (only when some entry
failed). -/
structure RunOutcome where
  backupWrite : Option Database
  databaseWrite : Option Database
  failedWrite : Option (List FailedEntry)
deriving DecidableEq, Inhabited

/-- `main()` of `scripts/process_pending_ipos.py` as a function from
the loaded database and pending entries to the files written; `today`
is `datetime.now().strftime("%Y-%m-%d")`. -/
def process_pending_main (today : String) (priceOf : String → String → PriceResult)
    (sectorOf : String → String) (db : Database)
    (pending : List PendingEntry) : RunOutcome :=
  let tickers0 := db.ipos.map (fun r => upperStr r.ticker)
  if pending.isEmpty then ⟨some db, none, none⟩
  else
    let st := processPending priceOf sectorOf tickers0 pending
    let dbWrite : Option Database :=
      if st.succ.isEmpty then none
      else some ⟨today, "Stock Analysis / Yahoo Finance / Finnhub / SEC Filings",
        sortDesc (db.ipos ++ st.succ)⟩
    let fWrite : Option (List FailedEntry) :=
      if st.failed.isEmpty then none else some st.failed
    ⟨some db, dbWrite, fWrite⟩

theorem priceFromMax_eq_ladder (t dt : String) (d : YfData) :
    priceFromMax (basePriceResult t dt) d =
      ladderSpecResult t dt
        (match rungMaxOpen d with
          | some hit => some hit
          | none => rungMaxClose d) := by
  obtain ⟨w, m, mx⟩ := d
  cases mx with
  | nil => rfl
  | cons r rest =>
    by_cases ho : 0 < r.openPrice
    · simp [priceFromMax, rungMaxOpen, ho, ladderSpecResult, basePriceResult]
    · by_cases hc : 0 < r.closePrice
      · simp [priceFromMax, rungMaxOpen, rungMaxClose, ho, hc, ladderSpecResult,
          basePriceResult]
      · simp [priceFromMax, rungMaxOpen, rungMaxClose, ho, hc, ladderSpecResult,
          basePriceResult]

theorem priceFromMonth_eq_ladder (t dt : String) (d : YfData) :
    priceFromMonth (basePriceResult t dt) d =
      ladderSpecResult t dt
        (match rungMonthClose d with
          | some hit => some hit
          | none =>
            match rungMaxOpen d with
            | some hit => some hit
            | none => rungMaxClose d) := by
  obtain ⟨w, m, mx⟩ := d
  cases m with
  | nil =>
    simpa [priceFromMonth, rungMonthClose] using priceFromMax_eq_ladder t dt ⟨w, [], mx⟩
  | cons r rest =>
    by_cases hc : 0 < r.closePrice
    · simp [priceFromMonth, rungMonthClose, hc, ladderSpecResult, basePriceResult]
    · simpa [priceFromMonth, rungMonthClose, hc]
        using priceFromMax_eq_ladder t dt ⟨w, r :: rest, mx⟩

/-- C1 (amended): for every ticker and target date, the price resolver
is exactly the spec's ladder: the strategies are consulted in the fixed
order window-open, window-close, month-close, max-open, max-close; the
first one whose row has a strictly positive price wins, its provenance
tag and trade date are recorded and its price is stored rounded to two
decimal places; and when every rung fails the result is unsuccessful
with reason "No price data available" (capital N, unlike the claimed
lowercase reason). -/
theorem c1_resolver_ladder (t dt : String) (d : YfData) :
    get_ipo_price_yfinance t dt (Except.ok d) = ladderSpecResult t dt (ladderFirst d) := by
  obtain ⟨w, m, mx⟩ := d
  cases w with
  | nil =>
    simpa [get_ipo_price_yfinance, ladderFirst, rungWindowOpen, rungWindowClose]
      using priceFromMonth_eq_ladder t dt ⟨[], m, mx⟩
  | cons r rest =>
    by_cases ho : 0 < r.openPrice
    · simp [get_ipo_price_yfinance, ladderFirst, rungWindowOpen, ho,
        ladderSpecResult, basePriceResult]
    · by_cases hc : 0 < r.closePrice
      · simp [get_ipo_price_yfinance, ladderFirst, rungWindowOpen, rungWindowClose,
          ho, hc, ladderSpecResult, basePriceResult]
      · simpa [get_ipo_price_yfinance, ladderFirst, rungWindowOpen, rungWindowClose,
          ho, hc]
          using priceFromMonth_eq_ladder t dt ⟨r :: rest, m, mx⟩

/-- C1, counterexample to the claim as stated: with no price data at
all, every strategy fails, and the recorded failure reason is
"No price data available" — not the claimed all-lowercase
"no price data available". -/
theorem c1_counterexample :
    (get_ipo_price_yfinance ("XYZ") ("2024-01-01") (Except.ok ⟨[], [], []⟩)).success = false
      ∧ (get_ipo_price_yfinance ("XYZ") ("2024-01-01") (Except.ok ⟨[], [], []⟩)).error
        = some ("No price data available")
      ∧ some ("No price data available") ≠ some ("no price data available") := by
  refine ⟨rfl, rfl, by decide⟩

theorem getLastD_of_getLast? {α : Type} [Inhabited α] (l : List α) (r : α)
    (h : l.getLast? = some r) : l.getLastD default = r := by
  cases l with
  | nil => simp at h
  | cons x t =>
    rw [List.getLastD_eq_getLast?, h]
    rfl

/-- C3 (amended): the status classifier returns Active with the last
close of the first non-empty short-horizon window — rounded to two
decimal places — as current price whenever any short-horizon lookup is
non-empty; when they are all empty and the lifetime-max history has a
last trade more than 30 days before now, it returns Delisted retaining
the (rounded) last price and the last trade date; and when the
lifetime-max history is also empty it returns Delisted with no price
information and the message "No trading data available". -/
theorem c3_status_classifier (now : ℤ) (h : StockHist) :
    (∀ w r, firstShortWindow h = some w → w.getLast? = some r →
      check_stock_status now (Except.ok h) =
        ⟨"active", some (round2 r.closePrice), none, none, none, none⟩)
    ∧ (∀ r, h.h1d = [] → h.h5d = [] → h.h1mo = [] → h.h3mo = [] →
      h.hmax.getLast? = some r → 30 < now - r.day →
      check_stock_status now (Except.ok h) =
        ⟨"delisted", none, some (round2 r.closePrice), some r.dateStr, none,
          some (lastTradedMessage r.dateStr (round2 r.closePrice))⟩)
    ∧ (h.h1d = [] → h.h5d = [] → h.h1mo = [] → h.h3mo = [] → h.hmax = [] →
      check_stock_status now (Except.ok h) =
        ⟨"delisted", none, none, none, none, some ("No trading data available")⟩) := by
  refine ⟨?_, ?_, ?_⟩
  · intro w r hw hr
    rw [check_stock_status, hw]
    dsimp only
    rw [getLastD_of_getLast? w r hr]
  · intro r h1 h5 h1m h3m hmax hdays
    have hfirst : firstShortWindow h = none := by
      simp [firstShortWindow, shortWindows, h1, h5, h1m, h3m]
    rw [check_stock_status, hfirst, hmax]
    simp [hdays]
  · intro h1 h5 h1m h3m hmax
    have hfirst : firstShortWindow h = none := by
      simp [firstShortWindow, shortWindows, h1, h5, h1m, h3m]
    rw [check_stock_status, hfirst, hmax]
    rfl

/-- C3, witness: a synthetic one-row one-day history is classified
Active with the (rounded) last close as current price. -/
theorem c3_witness :
    check_stock_status 0
        (Except.ok ⟨[⟨"2024-01-02", 19724, 10⟩], [], [], [], []⟩) =
      ⟨"active", some 10, none, none, none, none⟩ := by
  have h := (c3_status_classifier 0
      ⟨[⟨"2024-01-02", 19724, 10⟩], [], [], [], []⟩).1
      [⟨"2024-01-02", 19724, 10⟩] ⟨"2024-01-02", 19724, 10⟩ (by rfl) (by rfl)
  rw [h]
  have : round2 ((10 : ℚ)) = 10 := by norm_num [round2, roundHalfEven]
  rw [this]

/-- C3, counterexample to the claim as stated: a last close of
10.001 is reported as a current price of 10.00 — the last close
rounded to two decimal places, not the last close itself. -/
theorem c3_counterexample :
    (check_stock_status 0
        (Except.ok ⟨[⟨"2024-01-02", 19724, 10001/1000⟩], [], [], [], []⟩)).status
      = "active"
    ∧ (check_stock_status 0
        (Except.ok ⟨[⟨"2024-01-02", 19724, 10001/1000⟩], [], [], [], []⟩)).current_price
      ≠ some ((10001 : ℚ)/1000) := by
  constructor
  · rfl
  · show some (round2 ((10001 : ℚ)/1000)) ≠ some ((10001 : ℚ)/1000)
    have : round2 ((10001 : ℚ)/1000) = 10 := by norm_num [round2, roundHalfEven]
    rw [this]
    norm_num

/-- C9: any data-source exception during status classification yields
status "unknown", no price, and the exception text retained in the
message as "Error: ...". -/
theorem c9_exception_to_unknown (now : ℤ) (e : String) :
    check_stock_status now (Except.error e) =
      ⟨"unknown", none, none, none, none, some ("Error: " ++ e)⟩ := rfl

/-- C8 (amended): with a delisted or merged sentinel current price the
changes are null and the sentinel's status is passed through; with the
unknown sentinel (which reaches the calculator as None) the changes are
null but no status is set — the result instead carries the error
"Could not fetch current price"; with a numeric current price and a
non-zero resolved opening price, price change and percent change are
the differences rounded to two decimal places. -/
theorem c8_performance_calc (t dt : String) (sp : ℚ) (hist : List PriceRow)
    (cur : CurrentPrice) :
    (cur = CurrentPrice.delistedTag →
      (get_ipo_performance t dt sp hist cur).price_change = none
      ∧ (get_ipo_performance t dt sp hist cur).percent_change = none
      ∧ (get_ipo_performance t dt sp hist cur).status = some ("delisted"))
    ∧ (cur = CurrentPrice.mergedTag →
      (get_ipo_performance t dt sp hist cur).price_change = none
      ∧ (get_ipo_performance t dt sp hist cur).percent_change = none
      ∧ (get_ipo_performance t dt sp hist cur).status = some ("merged"))
    ∧ (cur = CurrentPrice.unavailable →
      (get_ipo_performance t dt sp hist cur).price_change = none
      ∧ (get_ipo_performance t dt sp hist cur).percent_change = none
      ∧ (get_ipo_performance t dt sp hist cur).status = none
      ∧ (get_ipo_performance t dt sp hist cur).error
          = some ("Could not fetch current price"))
    ∧ (∀ c, cur = CurrentPrice.price c → resolvedOpen hist sp ≠ 0 →
      (get_ipo_performance t dt sp hist cur).price_change
          = some (round2 (c - resolvedOpen hist sp))
      ∧ (get_ipo_performance t dt sp hist cur).percent_change
          = some (round2 ((c - resolvedOpen hist sp) / resolvedOpen hist sp * 100))
      ∧ (get_ipo_performance t dt sp hist cur).status = some ("active")) := by
  refine ⟨?_, ?_, ?_, ?_⟩
  · rintro rfl
    exact ⟨rfl, rfl, rfl⟩
  · rintro rfl
    exact ⟨rfl, rfl, rfl⟩
  · rintro rfl
    exact ⟨rfl, rfl, rfl, rfl⟩
  · rintro c rfl hopen
    simp [get_ipo_performance, hopen]

/-- C8, witness: an IPO opening price of 34.00 and a current price of
45.50 yield a price change of 11.50 and a percent change of 33.82. -/
theorem c8_witness :
    (get_ipo_performance ("RDDT") ("2024-03-21") 34 []
        (CurrentPrice.price (91/2))).price_change = some (23/2)
    ∧ (get_ipo_performance ("RDDT") ("2024-03-21") 34 []
        (CurrentPrice.price (91/2))).percent_change = some (1691/50) := by
  have h := (c8_performance_calc ("RDDT") ("2024-03-21") 34 []
      (CurrentPrice.price (91/2))).2.2.2 (91/2) rfl
      (by norm_num [resolvedOpen])
  refine ⟨?_, ?_⟩
  · rw [h.1]
    norm_num [resolvedOpen, round2, roundHalfEven]
  · rw [h.2.1]
    norm_num [resolvedOpen, round2, roundHalfEven]

/-- C8, counterexample to the claim as stated: for the unknown
sentinel (None), the changes are null but no status is passed
through — the result has no status at all, only an error text. -/
theorem c8_counterexample :
    (get_ipo_performance ("X") ("2024-01-01") 34 [] CurrentPrice.unavailable).status
      = none
    ∧ (get_ipo_performance ("X") ("2024-01-01") 34 [] CurrentPrice.unavailable).status
      ≠ some ("unknown")
    ∧ (get_ipo_performance ("X") ("2024-01-01") 34 [] CurrentPrice.unavailable).error
      = some ("Could not fetch current price") := by
  refine ⟨rfl, by decide, rfl⟩

theorem stringMk_data (s : String) : String.mk s.data = s := rfl

theorem afterLastDash_append (lo hi : List Char) (h : '-' ∉ hi) :
    afterLastDash (lo ++ '-' :: hi) = hi := by
  induction lo with
  | nil =>
    simp [afterLastDash, h]
  | cons c lo' ih =>
    have hmem : '-' ∈ lo' ++ '-' :: hi := by simp
    show afterLastDash (c :: (lo' ++ '-' :: hi)) = hi
    rw [afterLastDash, if_pos hmem]
    exact ih

theorem round2_zero : round2 0 = 0 := by
  norm_num [round2, roundHalfEven]

theorem pyFloatQ_zero_str : pyFloatQ ("0") = some 0 := by
  simp +decide [pyFloatQ, parseFloatChars, digitsToNat]

theorem parsePriceField_none : parsePriceField none = 0 := by
  simp +decide [parsePriceField, pyFloatQ, parseFloatChars, digitsToNat]

theorem parsePriceField_empty : parsePriceField (some ("")) = 0 := by
  simp +decide [parsePriceField, pyFloatQ, parseFloatChars, digitsToNat]

theorem dataAppendDash (lo hi : String) :
    (lo ++ "-" ++ hi).data = lo.data ++ '-' :: hi.data := by
  simp [String.data_append]

theorem appendDash_ne_empty (lo hi : String) : lo ++ "-" ++ hi ≠ "" := by
  intro h
  have hd := congrArg String.data h
  rw [dataAppendDash] at hd
  simp at hd

/-- C2 (amended): normalization maps a dash-separated range to the
upper bound of the range and a dashless numeric string to its own
value — in both cases rounded to two decimal places — and maps an
empty, missing or malformed price string (including a malformed upper
bound) to 0, without raising. -/
theorem c2_price_normalization :
    (∀ lo hi v, '-' ∉ hi.data → pyFloatQ hi = some v →
      normalizedPrice (some (lo ++ "-" ++ hi)) = round2 v)
    ∧ (∀ s v, '-' ∉ s.data → pyFloatQ s = some v →
      normalizedPrice (some s) = round2 v)
    ∧ (normalizedPrice none = 0 ∧ normalizedPrice (some ("")) = 0)
    ∧ (∀ s, '-' ∉ s.data → pyFloatQ s = none → normalizedPrice (some s) = 0)
    ∧ (∀ lo hi, '-' ∉ hi.data → pyFloatQ hi = none →
      normalizedPrice (some (lo ++ "-" ++ hi)) = 0)
    ∧ (∀ ipo : FinnhubIpo, (normalize_finnhub_ipo ipo).ipo_price
      = normalizedPrice ipo.price) := by
  have hrange : ∀ lo hi, '-' ∉ hi.data →
      parsePriceField (some (lo ++ "-" ++ hi)) = (pyFloatQ hi).getD 0 := by
    intro lo hi hdash
    have hne := appendDash_ne_empty lo hi
    have hmem : '-' ∈ (lo ++ "-" ++ hi).data := by
      rw [dataAppendDash]
      simp
    rw [parsePriceField]
    simp only [if_neg hne, if_pos hmem]
    rw [dataAppendDash, afterLastDash_append lo.data hi.data hdash, stringMk_data]
  have hplain : ∀ s, s ≠ "" → '-' ∉ s.data →
      parsePriceField (some s) = (pyFloatQ s).getD 0 := by
    intro s hne hdash
    rw [parsePriceField]
    simp only [if_neg hne, if_neg hdash]
  have hemptydata : ∀ s : String, s = "" → pyFloatQ s = none := by
    intro s hs
    subst hs
    rfl
  refine ⟨?_, ?_, ⟨?_, ?_⟩, ?_, ?_, fun _ => rfl⟩
  · intro lo hi v hdash hv
    rw [normalizedPrice, hrange lo hi hdash, hv]
    rfl
  · intro s v hdash hv
    by_cases hs : s = ""
    · rw [hemptydata s hs] at hv
      exact absurd hv (by simp)
    · rw [normalizedPrice, hplain s hs hdash, hv]
      rfl
  · rw [normalizedPrice, parsePriceField_none]
    exact round2_zero
  · rw [normalizedPrice, parsePriceField_empty]
    exact round2_zero
  · intro s hdash hnone
    by_cases hs : s = ""
    · subst hs
      rw [normalizedPrice, parsePriceField_empty]
      exact round2_zero
    · rw [normalizedPrice, hplain s hs hdash, hnone]
      exact round2_zero
  · intro lo hi hdash hnone
    rw [normalizedPrice, hrange lo hi hdash, hnone]
    exact round2_zero

/-- C2, witness: "31.00-34.00" normalizes to 34.00, "34.00" to 34.00,
and the empty price string to 0. -/
theorem c2_witness :
    normalizedPrice (some ("31.00-34.00")) = 34
    ∧ normalizedPrice (some ("34.00")) = 34
    ∧ normalizedPrice (some ("")) = 0 := by
  have happ : ("31.00" ++ "-" ++ "34.00" : String) = "31.00-34.00" := rfl
  have h1 := c2_price_normalization.1 ("31.00") ("34.00") 34 (by decide)
    (by simp +decide [pyFloatQ, parseFloatChars, digitsToNat])
  have h2 := c2_price_normalization.2.1 ("34.00") 34 (by decide)
    (by simp +decide [pyFloatQ, parseFloatChars, digitsToNat])
  have h3 := c2_price_normalization.2.2.1.2
  rw [happ] at h1
  refine ⟨?_, ?_, h3⟩
  · rw [h1]
    norm_num [round2, roundHalfEven]
  · rw [h2]
    norm_num [round2, roundHalfEven]

/-- C2, counterexample to the claim as stated: the dashless numeric
string "34.005" parses to 34.005 but normalizes to 34.00 — the parsed
value rounded to two decimal places, not the value itself. -/
theorem c2_counterexample :
    pyFloatQ ("34.005") = some (6801/200)
    ∧ '-' ∉ ("34.005" : String).data
    ∧ normalizedPrice (some ("34.005")) = 34
    ∧ (34 : ℚ) ≠ 6801/200 := by
  refine ⟨?_, by decide, ?_, by norm_num⟩
  · simp +decide [pyFloatQ, parseFloatChars, digitsToNat]
    norm_num
  · simp +decide [normalizedPrice, parsePriceField, afterLastDash, pyFloatQ,
      parseFloatChars, digitsToNat]
    norm_num [round2, roundHalfEven]

/-! Concrete sample data for witnesses and counterexamples. -/

/-- A company-profile collaborator that knows no sectors. -/
def profileUnknown : String → String := fun _ => "Unknown"

/-- An existing canonical record. -/
def recA : IpoRecord := ⟨"AAA", "Alpha Co", "2024-02-01", 10, "NYSE", "Tech"⟩

/-- An incoming FMP row with a fresh symbol. -/
def rawB : FmpIpo := ⟨"BBB", some ("Beta Co"), "2024-03-01", 12, "Nasdaq"⟩

/-- An incoming FMP row whose symbol is missing (falsy). -/
def rawEmptySym : FmpIpo := ⟨"", some ("Nameless Co"), "2024-04-01", 10, "NYSE"⟩

/-- An existing record whose ticker is mixed-case. -/
def recAbc : IpoRecord := ⟨"Abc", "Alpha Co", "2024-02-01", 10, "NYSE", "Tech"⟩

/-- An incoming FMP row whose symbol differs from `recAbc`'s ticker
only in letter case. -/
def rawABC : FmpIpo := ⟨"ABC", some ("Alpha Two"), "2024-01-01", 12, "NYSE"⟩

/-- An existing record that fails the validity predicate
(`ipo_price = 0`). -/
def invalidRec : IpoRecord := ⟨"BAD", "Bad Co", "2024-03-01", 0, "NYSE", "Tech"⟩

theorem mem_merge_of_mem_existing (p : String → String) (ex : List IpoRecord)
    (inc : List FmpIpo) (r : IpoRecord) (hr : r ∈ ex) :
    r ∈ merge_ipo_data p ex inc := by
  rw [merge_ipo_data, mergeFold_snd]
  exact ((sortDesc_perm _).mem_iff).mpr (List.mem_append_left _ hr)

/-- C4 (amended): the merge appends exactly those incoming records
whose ticker is non-empty and not already present — first occurrence
wins, later duplicates of the batch are dropped, nothing is
overwritten — and the result is the collection stably sorted by
`ipo_date` descending: it is a permutation of the existing records
followed by the selected new ones, pairwise sorted descending, the
records of any fixed date keep their original relative order, and
every existing record is still present. -/
theorem c4_merge_append_sort (p : String → String) (ex : List IpoRecord)
    (inc : List FmpIpo) :
    List.Perm (merge_ipo_data p ex inc) (ex ++ claimNewRecords p (tickSet ex) inc)
    ∧ SortedDesc (merge_ipo_data p ex inc)
    ∧ (∀ k, (merge_ipo_data p ex inc).filter (fun r => r.ipo_date == k)
        = (ex ++ claimNewRecords p (tickSet ex) inc).filter (fun r => r.ipo_date == k))
    ∧ (∀ r ∈ ex, r ∈ merge_ipo_data p ex inc) := by
  have hsnd := mergeFold_snd p (tickSet ex) ex inc
  refine ⟨?_, ?_, ?_, ?_⟩
  · rw [merge_ipo_data, hsnd]
    exact sortDesc_perm _
  · rw [merge_ipo_data]
    exact sortedDesc_sortDesc _
  · intro k
    rw [merge_ipo_data, hsnd, sortDesc_filter_date]
  · intro r hr
    exact mem_merge_of_mem_existing p ex inc r hr

/-- C4, witness: on a concrete store and batch, the existing record is
still a member of the merge result. -/
theorem c4_witness : recA ∈ merge_ipo_data profileUnknown [recA] [rawB] := by
  exact (c4_merge_append_sort profileUnknown [recA] [rawB]).2.2.2 recA (by simp)

/-- C4, counterexample to the claim as stated: an incoming record with
an empty (missing) symbol is not appended even though no record of the
store carries its ticker. -/
theorem c4_counterexample :
    merge_ipo_data profileUnknown [] [rawEmptySym] = []
    ∧ (fmpToRecord profileUnknown rawEmptySym).ticker ∉ tickSet [] := by
  refine ⟨rfl, by simp [tickSet]⟩

/-- C5 (amended): `merge_ipo_data` deduplicates by the exact ticker
string, not case-insensitively: if the existing store's tickers are
pairwise distinct then after any merge no two records share the same
ticker string.  (Case-insensitive uniqueness fails; see the
counterexample: a record differing from an existing ticker only in
letter case is added as a second record.) -/
theorem c5_exact_ticker_uniqueness (p : String → String) (ex : List IpoRecord)
    (inc : List FmpIpo) (hex : (tickSet ex).Nodup) :
    ((merge_ipo_data p ex inc).map (fun r => r.ticker)).Nodup := by
  have hsnd := mergeFold_snd p (tickSet ex) ex inc
  have hperm : List.Perm ((merge_ipo_data p ex inc).map (fun r => r.ticker))
      ((ex ++ claimNewRecords p (tickSet ex) inc).map (fun r => r.ticker)) := by
    rw [merge_ipo_data, hsnd]
    exact (sortDesc_perm _).map _
  rw [hperm.nodup_iff]
  rw [List.map_append]
  have hfresh := claimNewRecords_tickers_fresh p (tickSet ex) inc
  refine List.Nodup.append ?_ hfresh.2 ?_
  · exact hex
  · intro t ht hts
    exact hfresh.1 t hts ht

/-- C5, witness: with a duplicate-free store, the merge result's
tickers are pairwise distinct. -/
theorem c5_witness :
    ((merge_ipo_data profileUnknown [recA] [rawB]).map (fun r => r.ticker)).Nodup := by
  exact c5_exact_ticker_uniqueness profileUnknown [recA] [rawB] (by decide)

/-- C5, counterexample to the claim as stated: an incoming record
whose ticker differs from an existing record's ticker only in letter
case is appended, so two records of the merged store share the same
uppercased ticker. -/
theorem c5_counterexample :
    (merge_ipo_data profileUnknown [recAbc] [rawABC]).map (fun r => upperStr r.ticker)
      = ["ABC", "ABC"] := by
  decide

/-- C6: merging a batch into the result of merging the same batch
changes nothing — every kept symbol of the batch is already a ticker of
the first merge's result, every dropped one was dropped because it was
empty or already present, so the second pass appends nothing, and
re-sorting the already sorted store is the identity. -/
theorem c6_merge_idempotent (p : String → String) (S : List IpoRecord)
    (B : List FmpIpo) :
    merge_ipo_data p (merge_ipo_data p S B) B = merge_ipo_data p S B := by
  have hperm : List.Perm (tickSet (merge_ipo_data p S B))
      (tickSet S ++ (claimNewRecords p (tickSet S) B).map (fun r => r.ticker)) := by
    show List.Perm ((merge_ipo_data p S B).map (fun r => r.ticker)) _
    rw [merge_ipo_data, mergeFold_snd]
    have := (sortDesc_perm (S ++ claimNewRecords p (tickSet S) B)).map
      (fun r => r.ticker)
    rwa [List.map_append] at this
  have hcov : ∀ r ∈ B, r.symbol = "" ∨ r.symbol ∈ tickSet (merge_ipo_data p S B) := by
    intro r hr
    rcases mergeFold_covers p (tickSet S) S B r hr with h1 | h2
    · exact Or.inl h1
    · refine Or.inr (hperm.mem_iff.mpr ?_)
      rcases mergeFold_fst_sub p (tickSet S) S B r.symbol h2 with hseen | hnew
      · exact List.mem_append_left _ hseen
      · exact List.mem_append_right _ hnew
  have hnil : claimNewRecords p (tickSet (merge_ipo_data p S B)) B = [] :=
    claimNewRecords_nil_of_covered p _ B hcov
  rw [merge_ipo_data, mergeFold_snd, hnil, List.append_nil]
  apply sortDesc_of_sorted
  rw [merge_ipo_data]
  exact sortedDesc_sortDesc _

/-- C7 (amended): the post-merge validity filter applies to the whole
merged collection, existing records included, so an existing record
that fails the predicate IS dropped from persistence (see the
counterexample); what holds is that every existing record that
satisfies the validity predicate survives into the persisted output,
whatever the fetched batch, and that with an empty fetch the existing
records are persisted unchanged. -/
theorem c7_valid_existing_retained (p : String → String) (ex : List IpoRecord)
    (new_ipos : List FmpIpo) (r : IpoRecord) (hr : r ∈ ex)
    (hv : validIpo r = true) :
    r ∈ fetchPersistedIpos p ex new_ipos := by
  rw [fetchPersistedIpos]
  by_cases hnew : new_ipos.isEmpty
  · rw [if_pos hnew]
    exact hr
  · rw [if_neg hnew]
    refine List.mem_filter.mpr ⟨?_, hv⟩
    exact mem_merge_of_mem_existing p ex new_ipos r hr

/-- C7, witness: a valid existing record survives persistence across a
non-empty fetch. -/
theorem c7_witness : recA ∈ fetchPersistedIpos profileUnknown [recA] [rawB] := by
  exact c7_valid_existing_retained profileUnknown [recA] [rawB] recA (by simp)
    (by decide)

/-- C7, counterexample to the claim as stated: an existing record with
`ipo_price = 0` is dropped from the persisted output when a non-empty
fetch triggers the merge-and-filter path. -/
theorem c7_counterexample :
    invalidRec ∈ [invalidRec]
    ∧ invalidRec ∉ fetchPersistedIpos profileUnknown [invalidRec] [rawB] := by
  refine ⟨by simp, by decide⟩

theorem processPending_no_success (priceOf : String → String → PriceResult)
    (sectorOf : String → String) (pending : List PendingEntry) (st : PendState)
    (h : ∀ e ∈ pending, upperStr e.ticker ∈ st.tickers ∨ upperStr e.ticker = ""
      ∨ e.ipo_date = "" ∨ (priceOf (upperStr e.ticker) e.ipo_date).success = false) :
    (pending.foldl (stepPending priceOf sectorOf) st).succ = st.succ
    ∧ (pending.foldl (stepPending priceOf sectorOf) st).tickers = st.tickers := by
  induction pending generalizing st with
  | nil => exact ⟨rfl, rfl⟩
  | cons e rest ih =>
    have he := h e (by simp)
    have hstep : (stepPending priceOf sectorOf st e).succ = st.succ
        ∧ (stepPending priceOf sectorOf st e).tickers = st.tickers := by
      rw [stepPending]
      by_cases hdup : upperStr e.ticker ∈ st.tickers
      · rw [if_pos hdup]
        exact ⟨rfl, rfl⟩
      · rw [if_neg hdup]
        by_cases hmiss : upperStr e.ticker = "" ∨ e.ipo_date = ""
        · rw [if_pos hmiss]
          exact ⟨rfl, rfl⟩
        · rw [if_neg hmiss]
          have hfail : (priceOf (upperStr e.ticker) e.ipo_date).success = false := by
            rcases he with h1 | h2 | h3 | h4
            · exact absurd h1 hdup
            · exact absurd (Or.inl h2) hmiss
            · exact absurd (Or.inr h3) hmiss
            · exact h4
          rw [if_neg (by simp [hfail])]
          exact ⟨rfl, rfl⟩
    rw [List.foldl_cons]
    have hrest := ih (stepPending priceOf sectorOf st e)
      (by
        intro x hx
        rw [hstep.2]
        exact h x (List.mem_cons_of_mem _ hx))
    exact ⟨hrest.1.trans hstep.1, hrest.2.trans hstep.2⟩

/-- C10: when every pending candidate is a duplicate of the store, has
a missing ticker or date, or fails price resolution, the canonical
dataset file is not rewritten: the database write is absent (so its
content, `last_updated` and `source` stay exactly as loaded), the
backup write is the loaded database itself, and the failed-entries
file is written exactly when some candidate failed resolution. -/
theorem c10_no_success_no_rewrite (today : String)
    (priceOf : String → String → PriceResult) (sectorOf : String → String)
    (db : Database) (pending : List PendingEntry)
    (h : ∀ e ∈ pending,
      upperStr e.ticker ∈ db.ipos.map (fun r => upperStr r.ticker)
      ∨ upperStr e.ticker = "" ∨ e.ipo_date = ""
      ∨ (priceOf (upperStr e.ticker) e.ipo_date).success = false) :
    (process_pending_main today priceOf sectorOf db pending).databaseWrite = none
    ∧ (process_pending_main today priceOf sectorOf db pending).backupWrite = some db
    ∧ ((process_pending_main today priceOf sectorOf db pending).failedWrite = none
      ↔ (processPending priceOf sectorOf (db.ipos.map (fun r => upperStr r.ticker))
          pending).failed = []) := by
  rw [process_pending_main]
  by_cases hpend : pending.isEmpty
  · rw [if_pos hpend]
    refine ⟨rfl, rfl, ?_⟩
    have : pending = [] := List.isEmpty_iff.mp hpend
    subst this
    simp [processPending]
  · rw [if_neg hpend]
    have hsucc := processPending_no_success priceOf sectorOf pending
      ⟨db.ipos.map (fun r => upperStr r.ticker), [], [], 0⟩ h
    have hempty : (processPending priceOf sectorOf
        (db.ipos.map (fun r => upperStr r.ticker)) pending).succ.isEmpty := by
      rw [processPending, hsucc.1]
      rfl
    refine ⟨?_, rfl, ?_⟩
    · simp only [hempty, if_pos]
    · by_cases hf : (processPending priceOf sectorOf
          (db.ipos.map (fun r => upperStr r.ticker)) pending).failed.isEmpty
      · simp only [hf, if_pos]
        simpa using List.isEmpty_iff.mp hf
      · simp only [hf, if_neg]
        constructor
        · intro hcontr
          simp at hcontr
        · intro hnil
          exact absurd (List.isEmpty_iff.mpr hnil) hf

/-- A price oracle for which every resolution fails. -/
def failOracle : String → String → PriceResult :=
  fun t dt => { basePriceResult t dt with error := some ("No price data available") }

/-- A pending candidate not present in the sample database. -/
def pendingZ : PendingEntry :=
  ⟨"ZZZZ", "Zeta Co", "2024-05-01", 0, "NYSE", "Unknown", "priced", "Finnhub"⟩

/-- A loaded sample database. -/
def dbSample : Database := ⟨"2024-01-01", "Multiple sources", [recA]⟩

/-- C10, witness: a run in which the only candidate fails resolution
writes no database file and backs up the loaded database unchanged. -/
theorem c10_witness :
    (process_pending_main ("2024-06-01") failOracle profileUnknown dbSample
      [pendingZ]).databaseWrite = none
    ∧ (process_pending_main ("2024-06-01") failOracle profileUnknown dbSample
      [pendingZ]).backupWrite = some dbSample := by
  have h := c10_no_success_no_rewrite ("2024-06-01") failOracle profileUnknown
    dbSample [pendingZ]
    (by
      intro e he
      simp only [List.mem_singleton] at he
      subst he
      right
      right
      right
      rfl)
  exact ⟨h.1, h.2.1⟩
